import Mathlib

/-! Verification model of the nexus-timers addon (src/lib.rs).

Times are modelled in whole nanoseconds: a Rust Instant is a Nat (nanoseconds
since an arbitrary epoch) and a Rust Duration is the pair of its u64 seconds
field and u32 sub-second nanos field.  Machine-integer casts are modelled by
explicit arithmetic on Nat and Int.  Strings are Lean Strings; the Rust
method trim_start_matches is modelled on the underlying character lists. -/

/-- Rust std Duration: secs is the u64 seconds field, nanos the u32
sub-second field (in the running program it always satisfies nanos < 10^9
and secs < 2^64; the theorems below do not need those bounds). -/
structure Duration where
  secs : Nat
  nanos : Nat
deriving DecidableEq

/-- Rust Duration::from_secs. -/
def Duration.from_secs (s : Nat) : Duration := ⟨s, 0⟩

/-- Total length of a Duration in nanoseconds. -/
def Duration.toNanos (d : Duration) : Nat := d.secs * 1000000000 + d.nanos

/-- Timer (src/lib.rs lines 18-25).  The started field carries the serde
attributes skip and default: it is never written to the persisted file and
deserializes to None.  An Instant is a Nat of nanoseconds. -/
structure Timer where
  name : String
  duration : Duration
  started : Option Nat
deriving DecidableEq

/-- One record of the persisted JSON array: exactly the serialized fields of
a Timer, i.e. name and duration, with started skipped (lib.rs line 23). -/
structure PersistRecord where
  name : String
  duration : Duration
deriving DecidableEq

/-- Serialization performed at unload (lib.rs lines 179-187):
serde_json::to_string_pretty on the Vec of timers writes, for each timer,
its name and duration and skips started. -/
def serializeTimers (ts : List Timer) : List PersistRecord :=
  ts.map (fun t => ⟨t.name, t.duration⟩)

/-- Deserialization of a parsed persisted array: each record yields a Timer
whose started field takes its serde default, None. -/
def deserializeTimers (rs : List PersistRecord) : List Timer :=
  rs.map (fun r => ⟨r.name, r.duration, none⟩)

/-- The fixed identifier prefix used for keybinds (lib.rs lines 52, 60, 67). -/
def kbPre : String := "KB_TIMER_START_"

/-- The keybind identifier of a timer name: format of lib.rs line 67. -/
def kbIdent (n : String) : String := kbPre ++ n

/-- Boolean test that the first list is an initial segment of the second. -/
def checkPre : List Char → List Char → Bool
  | [], _ => true
  | _ :: _, [] => false
  | a :: ps, b :: qs => a == b && checkPre ps qs

/-- Fuel-indexed loop of Rust str::trim_start_matches: while the pattern is
an initial segment of the string, drop it. -/
def trimStartFuel : Nat → List Char → List Char → List Char
  | 0, _, s => s
  | f + 1, pat, s =>
    if checkPre pat s then trimStartFuel f pat (s.drop pat.length) else s

/-- Rust str::trim_start_matches on character lists: repeatedly removes the
pattern from the front.  Fuel s.length suffices since every removal of a
nonempty pattern strictly shortens the string. -/
def trimStart (pat s : List Char) : List Char :=
  trimStartFuel s.length pat s

/-- Name extraction in the keybind handler (lib.rs line 60):
id.trim_start_matches of the prefix KB_TIMER_START_. -/
def extractName (id : String) : String :=
  ⟨trimStart kbPre.data id.data⟩

/-- Timer::find_by_name (lib.rs lines 40-42): first timer with the given
name, by linear scan. -/
def Timer.find_by_name : List Timer → String → Option Timer
  | [], _ => none
  | t :: ts, n => if t.name = n then some t else Timer.find_by_name ts n

/-- Effect of the keybind handler body on the registry once a name is in
hand (lib.rs lines 62-64): the first timer with that name gets
started := some now; every other timer is untouched. -/
def restartFirst : List Timer → String → Nat → List Timer
  | [], _, _ => []
  | t :: ts, n, now =>
    if t.name = n then { t with started := some now } :: ts
    else t :: restartFirst ts n now

/-- The keybind handler registered for every timer (lib.rs lines 56-65):
release events are ignored; otherwise the timer name is extracted from the
identifier and the first timer with that name is restarted at now. -/
def start_key_handler (ts : List Timer) (id : String) (is_release : Bool)
    (now : Nat) : List Timer :=
  if is_release then ts
  else restartFirst ts (extractName id) now

/-- The load path (lib.rs lines 81-100) as a function of the outcome of
reading the persisted file: none models a failed File::open (missing or
unreadable file), some (Except.error e) a serde_json parse failure, and
some (Except.ok recs) a parsed array of records.  Returns the initial
registry together with the list of keybind identifiers registered for it
(one per loaded timer, in order). -/
def load (file : Option (Except String (List PersistRecord))) :
    List Timer × List String :=
  match file with
  | some (Except.ok recs) =>
    let config := deserializeTimers recs
    (config, config.map (fun t => kbIdent t.name))
  | some (Except.error _) => ([], [])
  | none => ([], [])

/-- Remaining time shown for one timer by the display pass
(lib.rs lines 109-116), in nanoseconds, before float formatting:
elapsed = now - started; if elapsed >= duration the display is 0,
otherwise duration - elapsed.  The none arm is unreachable because the
pass filters on started.is_some. -/
def Timer.remaining (t : Timer) (now : Nat) : Nat :=
  match t.started with
  | none => 0
  | some t0 =>
    if t.duration.toNanos ≤ now - t0 then 0
    else t.duration.toNanos - (now - t0)

/-- The display pass render_fn (lib.rs lines 106-119): for every running
timer a window titled with its name showing the remaining time.  The pass
only reads the registry; the returned registry is the input unchanged. -/
def render_fn (ts : List Timer) (now : Nat) :
    List (String × Nat) × List Timer :=
  ((ts.filter (fun t => t.started.isSome)).map (fun t => (t.name, t.remaining now)),
   ts)

/-- Rust cast u64 as i32: keep the low 32 bits and reinterpret them as a
signed 32-bit value. -/
def asI32ofU64 (s : Nat) : Int :=
  if s % 2 ^ 32 < 2 ^ 31 then ((s % 2 ^ 32 : Nat) : Int)
  else ((s % 2 ^ 32 : Nat) : Int) - 2 ^ 32

/-- Rust cast i32 as u64: sign extension; a negative v becomes v + 2^64. -/
def i32asU64 (v : Int) : Nat :=
  (v % (2 ^ 64 : Int)).toNat

/-- The duration handling of one row of the options table
(lib.rs lines 130-136): seconds is initialized to duration.as_secs() as i32;
the input field is read-only while the timer runs, so user input (modelled
as Option Int, none meaning the field was left untouched) only takes effect
on a stopped timer; finally if seconds >= 0 the duration is reassigned to
Duration::from_secs(seconds as u64). -/
def editDuration (t : Timer) (input : Option Int) : Timer :=
  let seconds0 : Int := asI32ofU64 t.duration.secs
  let seconds : Int := if t.started.isSome then seconds0 else input.getD seconds0
  if 0 ≤ seconds then { t with duration := Duration.from_secs seconds.toNat }
  else t

/-- The duration stored by the Add control (lib.rs line 171):
Duration::from_secs(NEW_DURATION.get() as u64) where NEW_DURATION is an
i32 cell holding the entered seconds value. -/
def addRowDuration (v : Int) : Duration :=
  Duration.from_secs (i32asU64 v)

/-- The per-row loop of the options pass (lib.rs lines 125-149) fused with
the index filter applied after it (lib.rs lines 143-149): every row first
gets its duration treatment (editDuration); a row whose Delete button was
clicked (deletes at its index) is recorded in to_remove and its keybind
identifier unregistered, and the subsequent filter drops exactly the
recorded indices, keeping the rest in order.  Returns the kept timers and
the identifiers unregistered during the pass, in row order. -/
def optionsLoop : List Timer → (Nat → Option Int) → (Nat → Bool) → Nat →
    List Timer × List String
  | [], _, _, _ => ([], [])
  | t :: rest, edits, deletes, i =>
    if deletes i then
      ((optionsLoop rest edits deletes (i + 1)).1,
       kbIdent (editDuration t (edits i)).name ::
         (optionsLoop rest edits deletes (i + 1)).2)
    else
      (editDuration t (edits i) :: (optionsLoop rest edits deletes (i + 1)).1,
       (optionsLoop rest edits deletes (i + 1)).2)

/-- Result of one execution of the options (editing) pass over the existing
rows: the registry afterwards and the keybind identifiers unregistered. -/
structure OptionsResult where
  timers : List Timer
  unregistered : List String
deriving DecidableEq

/-- One execution of render_options (lib.rs lines 121-177) over the
existing rows, starting at index 0.  The Add row is modelled separately by
addRowDuration. -/
def render_options (ts : List Timer) (edits : Nat → Option Int)
    (deletes : Nat → Bool) : OptionsResult :=
  ⟨(optionsLoop ts edits deletes 0).1, (optionsLoop ts edits deletes 0).2⟩

/-! Helper lemmas -/

theorem checkPre_le : ∀ pat s : List Char, checkPre pat s = true → pat.length ≤ s.length
  | [], _, _ => Nat.zero_le _
  | _ :: _, [], h => by simp [checkPre] at h
  | _ :: ps, _ :: qs, h => by
    simp only [checkPre, Bool.and_eq_true] at h
    simp only [List.length_cons]
    exact Nat.succ_le_succ (checkPre_le ps qs h.2)

theorem checkPre_append : ∀ pat s : List Char, checkPre pat (pat ++ s) = true
  | [], _ => rfl
  | a :: ps, s => by
    simp only [List.cons_append, checkPre, Bool.and_eq_true]
    exact ⟨by simp, checkPre_append ps s⟩

theorem trimStartFuel_nil : ∀ (f : Nat) (pat : List Char), trimStartFuel f pat [] = []
  | 0, _ => rfl
  | f + 1, pat => by
    cases h : checkPre pat [] <;>
      simp [trimStartFuel, h, trimStartFuel_nil f pat]

theorem trimStartFuel_nilpat : ∀ (f : Nat) (s : List Char), trimStartFuel f [] s = s
  | 0, _ => rfl
  | f + 1, s => by
    simp [trimStartFuel, checkPre, trimStartFuel_nilpat f s]

theorem trimStartFuel_fuel (f1 : Nat) : ∀ (f2 : Nat) (pat s : List Char),
    s.length ≤ f1 → s.length ≤ f2 → trimStartFuel f1 pat s = trimStartFuel f2 pat s := by
  induction f1 with
  | zero =>
    intro f2 pat s h1 _
    have hs : s = [] := List.length_eq_zero.mp (Nat.le_zero.mp h1)
    subst hs
    rw [trimStartFuel_nil, trimStartFuel_nil]
  | succ f ih =>
    intro f2 pat s h1 h2
    cases f2 with
    | zero =>
      have hs : s = [] := List.length_eq_zero.mp (Nat.le_zero.mp h2)
      subst hs
      rw [trimStartFuel_nil, trimStartFuel_nil]
    | succ g =>
      cases pat with
      | nil => rw [trimStartFuel_nilpat, trimStartFuel_nilpat]
      | cons a ps =>
        cases h : checkPre (a :: ps) s with
        | false => simp [trimStartFuel, h]
        | true =>
          have hlen := checkPre_le (a :: ps) s h
          simp only [List.length_cons] at hlen
          have hd1 : (s.drop (a :: ps).length).length ≤ f := by
            simp only [List.length_drop, List.length_cons]
            omega
          have hd2 : (s.drop (a :: ps).length).length ≤ g := by
            simp only [List.length_drop, List.length_cons]
            omega
          simp only [trimStartFuel, h, if_true]
          exact ih g (a :: ps) _ hd1 hd2

theorem trimStart_append (pat s : List Char) :
    trimStart pat (pat ++ s) = trimStart pat s := by
  unfold trimStart
  rw [trimStartFuel_fuel (pat ++ s).length ((pat ++ s).length + 1) pat (pat ++ s)
    le_rfl (Nat.le_succ _)]
  simp only [trimStartFuel, checkPre_append pat s, if_true, List.drop_left]
  exact trimStartFuel_fuel _ _ pat s (by rw [List.length_append]; omega) le_rfl

theorem trimStart_no (pat s : List Char) (h : checkPre pat s = false) :
    trimStart pat s = s := by
  unfold trimStart
  cases hl : s.length with
  | zero => rfl
  | succ n => simp [trimStartFuel, h]

theorem extract_round (n : String) (h : checkPre kbPre.data n.data = false) :
    extractName (kbIdent n) = n := by
  obtain ⟨d⟩ := n
  show (⟨trimStart kbPre.data (kbPre ++ (⟨d⟩ : String)).data⟩ : String) = ⟨d⟩
  have hd : (kbPre ++ (⟨d⟩ : String)).data = kbPre.data ++ d := rfl
  rw [hd, trimStart_append, trimStart_no _ _ h]

theorem editDuration_name (t : Timer) (input : Option Int) :
    (editDuration t input).name = t.name := by
  simp only [editDuration]
  split <;> split <;> rfl

theorem editDuration_started (t : Timer) (input : Option Int) :
    (editDuration t input).started = t.started := by
  simp only [editDuration]
  split <;> split <;> rfl

theorem find_by_name_eq_none (ts : List Timer) (n : String)
    (h : ∀ t ∈ ts, t.name ≠ n) : Timer.find_by_name ts n = none := by
  induction ts with
  | nil => rfl
  | cons t rest ih =>
    simp only [Timer.find_by_name]
    rw [if_neg (h t (by simp))]
    exact ih (fun u hu => h u (by simp [hu]))

theorem restartFirst_eq_self (ts : List Timer) (n : String) (now : Nat)
    (h : ∀ t ∈ ts, t.name ≠ n) : restartFirst ts n now = ts := by
  induction ts with
  | nil => rfl
  | cons t rest ih =>
    simp only [restartFirst]
    rw [if_neg (h t (by simp)), ih (fun u hu => h u (by simp [hu]))]

theorem find_restart_restart (ts : List Timer) (n : String) (t1 t2 : Nat) :
    Timer.find_by_name (restartFirst (restartFirst ts n t1) n t2) n
      = (Timer.find_by_name ts n).map (fun t => { t with started := some t2 }) := by
  induction ts with
  | nil => rfl
  | cons t rest ih =>
    by_cases h : t.name = n
    · simp [restartFirst, Timer.find_by_name, h]
    · simp [restartFirst, Timer.find_by_name, h, ih]

theorem optionsLoop_nodel (ts : List Timer) (deletes : Nat → Bool) (i0 : Nat)
    (h : ∀ j, i0 ≤ j → deletes j = false) :
    optionsLoop ts (fun _ => none) deletes i0
      = (ts.map (fun t => editDuration t none), []) := by
  induction ts generalizing i0 with
  | nil => rfl
  | cons t rest ih =>
    simp only [optionsLoop, h i0 le_rfl, List.map_cons]
    simp [ih (i0 + 1) (fun j hj => h j (by omega))]

theorem editDuration_none (t : Timer) :
    editDuration t none
      = { t with duration :=
          if 0 ≤ asI32ofU64 t.duration.secs
          then Duration.from_secs (asI32ofU64 t.duration.secs).toNat
          else t.duration } := by
  simp only [editDuration, Option.getD_none, ite_self]
  split_ifs <;> rfl

theorem optionsLoop_names_sublist (ts : List Timer) (edits : Nat → Option Int)
    (deletes : Nat → Bool) (i0 : Nat) :
    ((optionsLoop ts edits deletes i0).1.map Timer.name).Sublist
      (ts.map Timer.name) := by
  induction ts generalizing i0 with
  | nil => simp [optionsLoop]
  | cons t rest ih =>
    cases hd : deletes i0 with
    | true =>
      have he : (optionsLoop (t :: rest) edits deletes i0).1
          = (optionsLoop rest edits deletes (i0 + 1)).1 := by
        simp [optionsLoop, hd]
      rw [he, List.map_cons]
      exact (ih (i0 + 1)).cons t.name
    | false =>
      have he : (optionsLoop (t :: rest) edits deletes i0).1
          = editDuration t (edits i0) :: (optionsLoop rest edits deletes (i0 + 1)).1 := by
        simp [optionsLoop, hd]
      rw [he, List.map_cons, List.map_cons, editDuration_name]
      exact (ih (i0 + 1)).cons₂ t.name

theorem optionsLoop_split (pre post : List Timer) (tT : Timer)
    (deletes : Nat → Bool) (i0 : Nat)
    (hdel : deletes (i0 + pre.length) = true)
    (hoth : ∀ j, i0 ≤ j → j ≠ i0 + pre.length → deletes j = false) :
    optionsLoop (pre ++ tT :: post) (fun _ => none) deletes i0
      = (pre.map (fun t => editDuration t none)
          ++ post.map (fun t => editDuration t none),
         [kbIdent (editDuration tT none).name]) := by
  induction pre generalizing i0 with
  | nil =>
    simp only [List.length_nil, Nat.add_zero] at hdel
    simp only [List.nil_append, optionsLoop, hdel]
    rw [optionsLoop_nodel post deletes (i0 + 1)
      (fun j hj => hoth j (by omega) (by simp only [List.length_nil]; omega))]
    simp
  | cons p pre ih =>
    have hp : deletes i0 = false := by
      apply hoth i0 le_rfl
      simp only [List.length_cons]
      omega
    have hdel' : deletes ((i0 + 1) + pre.length) = true := by
      have : (i0 + 1) + pre.length = i0 + (p :: pre).length := by
        simp only [List.length_cons]
        omega
      rw [this]
      exact hdel
    have hoth' : ∀ j, i0 + 1 ≤ j → j ≠ (i0 + 1) + pre.length → deletes j = false := by
      intro j hj hne
      apply hoth j (by omega)
      simp only [List.length_cons]
      omega
    rw [List.cons_append]
    simp only [optionsLoop, hp]
    simp only [ih (i0 + 1) hdel' hoth']
    simp

/-! Claim theorems -/

/-- C1: Persistence round-trip.  Serializing a registry of timers as done at
unload and deserializing it as done at load yields the same number of timers
in the same order, with identical names and durations, and with
started = none for every timer, regardless of each timer's running state
before serialization. -/
theorem persist_round_trip (ts : List Timer) :
    deserializeTimers (serializeTimers ts)
        = ts.map (fun t => { t with started := none })
      ∧ (deserializeTimers (serializeTimers ts)).length = ts.length
      ∧ (deserializeTimers (serializeTimers ts)).map Timer.name = ts.map Timer.name
      ∧ (deserializeTimers (serializeTimers ts)).map Timer.duration
          = ts.map Timer.duration
      ∧ ∀ t ∈ deserializeTimers (serializeTimers ts), t.started = none := by
  refine ⟨?_, ?_, ?_, ?_, ?_⟩ <;>
    simp [serializeTimers, deserializeTimers, List.map_map, Function.comp]

/-- C2: Remaining-time computation.  For a timer of duration D (in
nanoseconds) started at t0, the remaining time computed by the display pass
at time t0 + x is D - x for x < D and 0 for every x ≥ D; being a Nat it is
never negative, and the pass returns the registry unchanged, so started
remains some t0 at and after expiry. -/
theorem remaining_clamped (nm : String) (D : Duration) (t0 x : Nat)
    (ts : List Timer) :
    Timer.remaining ⟨nm, D, some t0⟩ (t0 + x)
        = (if x < D.toNanos then D.toNanos - x else 0)
      ∧ 0 ≤ Timer.remaining ⟨nm, D, some t0⟩ (t0 + x)
      ∧ (render_fn ts (t0 + x)).2 = ts := by
  refine ⟨?_, Nat.zero_le _, rfl⟩
  simp only [Timer.remaining, Nat.add_sub_cancel_left]
  split_ifs <;> omega

/-- C3: Restart last-wins.  Triggering the keybind handler at t1 and again
at t2 > t1 leaves the targeted timer (the first one whose name the handler
extracts from the identifier) with started = some t2, whatever its prior
running state. -/
theorem restart_last_wins (ts : List Timer) (id : String) (t1 t2 : Nat)
    (h : t1 < t2) :
    Timer.find_by_name
        (start_key_handler (start_key_handler ts id false t1) id false t2)
        (extractName id)
      = (Timer.find_by_name ts (extractName id)).map
          (fun t => { t with started := some t2 }) := by
  show Timer.find_by_name
      (restartFirst (restartFirst ts (extractName id) t1) (extractName id) t2)
      (extractName id) = _
  exact find_restart_restart ts (extractName id) t1 t2

/-- Witness for restart_last_wins at a concrete registry and identifier. -/
theorem restart_last_wins_w :
    (1 : Nat) < 2
      ∧ Timer.find_by_name
          (start_key_handler
            (start_key_handler [⟨"A", ⟨5, 0⟩, none⟩] "KB_TIMER_START_A" false 1)
            "KB_TIMER_START_A" false 2)
          (extractName "KB_TIMER_START_A")
        = (Timer.find_by_name [⟨"A", ⟨5, 0⟩, none⟩] (extractName "KB_TIMER_START_A")).map
            (fun t => { t with started := some 2 }) :=
  ⟨by decide, restart_last_wins [⟨"A", ⟨5, 0⟩, none⟩] "KB_TIMER_START_A" 1 2 (by decide)⟩

/-- C4 counterexample: the claim that one execution of the editing pass
leaves a running timer's duration unchanged fails at a running timer whose
duration has a sub-second component: the pass rewrites the duration of the
timer named a from 5.5 s to 5 s. -/
theorem running_edit_changed_cex :
    ¬ ((render_options [⟨"a", ⟨5, 500000000⟩, some 0⟩] (fun _ => none)
          (fun _ => false)).timers
        = [⟨"a", ⟨5, 500000000⟩, some 0⟩]) := by decide

/-- C4 amended: a user edit to a running timer's duration is rejected (the
field is read-only, so any entered value is ignored) and a running timer
whose duration is a whole number of seconds below 2^31 is left unchanged by
the editing pass; durations outside that shape are rewritten by the pass's
unconditional reassignment (see editing_pass_rewrite). -/
theorem running_edit_unchanged (t : Timer) (input : Option Int)
    (h1 : t.started.isSome = true) (h2 : t.duration.nanos = 0)
    (h3 : t.duration.secs < 2 ^ 31) :
    editDuration t input = t := by
  obtain ⟨nm, ⟨s, nn⟩, st⟩ := t
  simp only at h1 h2 h3
  subst h2
  have hm : s % 2 ^ 32 = s := Nat.mod_eq_of_lt (by omega)
  have h0 : asI32ofU64 s = (s : Int) := by
    simp only [asI32ofU64, hm]
    rw [if_pos h3]
  simp [editDuration, h1, h0, Duration.from_secs]

/-- Witness for running_edit_unchanged: a running 5-second timer survives
the editing pass unchanged even when 99 is typed into its field. -/
theorem running_edit_unchanged_w :
    ((⟨"a", ⟨5, 0⟩, some 0⟩ : Timer).started.isSome = true)
      ∧ editDuration ⟨"a", ⟨5, 0⟩, some 0⟩ (some 99) = ⟨"a", ⟨5, 0⟩, some 0⟩ :=
  ⟨by decide, running_edit_unchanged ⟨"a", ⟨5, 0⟩, some 0⟩ (some 99)
    (by decide) (by decide) (by decide)⟩

/-- C5: a negative seconds value in the Add row is not rejected: the i32 is
sign-extended by the cast to u64, so entering -1 produces a timer duration
of 2^64 - 1 seconds, while the per-row edit path of an existing stopped
timer does reject the same negative input. -/
theorem add_negative_stored :
    addRowDuration (-1) = ⟨18446744073709551615, 0⟩
      ∧ editDuration ⟨"x", ⟨7, 0⟩, none⟩ (some (-1)) = ⟨"x", ⟨7, 0⟩, none⟩ :=
  ⟨by decide, by decide⟩

/-- C6 counterexample: name uniqueness does not hold after loading an
arbitrary persisted file; a file with two records named A loads into a
registry with two distinct timers both named A. -/
theorem duplicate_names_cex :
    ((load (some (Except.ok [⟨"A", ⟨5, 0⟩⟩, ⟨"A", ⟨7, 0⟩⟩]))).1.map Timer.name
        = ["A", "A"])
      ∧ ¬ ((load (some (Except.ok [⟨"A", ⟨5, 0⟩⟩, ⟨"A", ⟨7, 0⟩⟩]))).1.map
            Timer.name).Nodup :=
  ⟨by decide, by decide⟩

/-- C6 amended: the code never enforces name uniqueness; what holds is that
loading a persisted file whose records have pairwise distinct names yields a
registry with pairwise distinct names, and one execution of the editing pass
(any edits, any deletions) preserves that distinctness. -/
theorem unique_names_preserved (recs : List PersistRecord)
    (edits : Nat → Option Int) (deletes : Nat → Bool)
    (h : (recs.map PersistRecord.name).Nodup) :
    ((load (some (Except.ok recs))).1.map Timer.name).Nodup
      ∧ ((render_options (load (some (Except.ok recs))).1 edits deletes).timers.map
          Timer.name).Nodup := by
  have hn : (load (some (Except.ok recs))).1.map Timer.name
      = recs.map PersistRecord.name := by
    simp [load, deserializeTimers, List.map_map, Function.comp]
  refine ⟨hn ▸ h, ?_⟩
  have hs := optionsLoop_names_sublist (load (some (Except.ok recs))).1 edits deletes 0
  exact List.Nodup.sublist hs (hn ▸ h)

/-- Witness for unique_names_preserved on a two-record file with distinct
names and a pass with no edits and no deletions. -/
theorem unique_names_preserved_w :
    ((load (some (Except.ok [⟨"A", ⟨1, 0⟩⟩, ⟨"B", ⟨2, 0⟩⟩]))).1.map Timer.name).Nodup
      ∧ ((render_options (load (some (Except.ok [⟨"A", ⟨1, 0⟩⟩, ⟨"B", ⟨2, 0⟩⟩]))).1
          (fun _ => none) (fun _ => false)).timers.map Timer.name).Nodup :=
  unique_names_preserved [⟨"A", ⟨1, 0⟩⟩, ⟨"B", ⟨2, 0⟩⟩] (fun _ => none)
    (fun _ => false) (by decide)

/-- C7 counterexample: a trigger event for the deleted timer's identifier is
not always without effect.  Deleting the timer named KB_TIMER_START_A and
then firing its identifier KB_TIMER_START_KB_TIMER_START_A changes the
registry: the handler strips the prefix repeatedly, obtains the name A, and
restarts the remaining timer named A. -/
theorem delete_trigger_effect_cex :
    start_key_handler
        (render_options [⟨"KB_TIMER_START_A", ⟨1, 0⟩, none⟩, ⟨"A", ⟨1, 0⟩, none⟩]
          (fun _ => none) (fun j => j == 0)).timers
        (kbIdent "KB_TIMER_START_A") false 42
      ≠ (render_options [⟨"KB_TIMER_START_A", ⟨1, 0⟩, none⟩, ⟨"A", ⟨1, 0⟩, none⟩]
          (fun _ => none) (fun j => j == 0)).timers := by decide

/-- C7 amended: deleting through the editing pass the unique timer named T,
at its row, removes it from find_by_name lookups, preserves the relative
order of the remaining timers, unregisters the identifier KB_TIMER_START_T
in the same pass, and, provided T does not itself start with
KB_TIMER_START_, a later trigger event for that identifier has no effect on
the registry. -/
theorem delete_removes_timer (pre post : List Timer) (tT : Timer) (T : String)
    (now : Nat) (h2 : tT.name = T)
    (h3 : ∀ t ∈ pre, t.name ≠ T) (h4 : ∀ t ∈ post, t.name ≠ T)
    (h5 : checkPre kbPre.data T.data = false) :
    Timer.find_by_name
        (render_options (pre ++ tT :: post) (fun _ => none)
          (fun j => j == pre.length)).timers T = none
      ∧ (render_options (pre ++ tT :: post) (fun _ => none)
          (fun j => j == pre.length)).timers.map Timer.name
          = (pre ++ post).map Timer.name
      ∧ kbIdent T ∈ (render_options (pre ++ tT :: post) (fun _ => none)
          (fun j => j == pre.length)).unregistered
      ∧ start_key_handler
          (render_options (pre ++ tT :: post) (fun _ => none)
            (fun j => j == pre.length)).timers (kbIdent T) false now
        = (render_options (pre ++ tT :: post) (fun _ => none)
            (fun j => j == pre.length)).timers := by
  have hdel : (fun j => j == pre.length) (0 + pre.length) = true := by simp
  have hoth : ∀ j, 0 ≤ j → j ≠ 0 + pre.length →
      (fun j => j == pre.length) j = false := by
    intro j _ hne
    simp only [Nat.zero_add] at hne
    simp [hne]
  have hsplit := optionsLoop_split pre post tT (fun j => j == pre.length) 0 hdel hoth
  have ht : (render_options (pre ++ tT :: post) (fun _ => none)
      (fun j => j == pre.length)).timers
      = pre.map (fun t => editDuration t none)
        ++ post.map (fun t => editDuration t none) := by
    simp only [render_options, hsplit]
  have hu : (render_options (pre ++ tT :: post) (fun _ => none)
      (fun j => j == pre.length)).unregistered
      = [kbIdent (editDuration tT none).name] := by
    simp only [render_options, hsplit]
  have hnames : ∀ t ∈ pre.map (fun t => editDuration t none)
      ++ post.map (fun t => editDuration t none), t.name ≠ T := by
    intro t htm
    rcases List.mem_append.mp htm with hm | hm
    · obtain ⟨u, hu', rfl⟩ := List.mem_map.mp hm
      rw [editDuration_name]
      exact h3 u hu'
    · obtain ⟨u, hu', rfl⟩ := List.mem_map.mp hm
      rw [editDuration_name]
      exact h4 u hu'
  refine ⟨?_, ?_, ?_, ?_⟩
  · rw [ht]
    exact find_by_name_eq_none _ T hnames
  · rw [ht]
    simp only [List.map_append, List.map_map, Function.comp_def, editDuration_name]
  · rw [hu, editDuration_name, h2]
    simp
  · rw [ht]
    show restartFirst _ (extractName (kbIdent T)) now = _
    rw [extract_round T h5]
    exact restartFirst_eq_self _ T now hnames

/-- Witness for delete_removes_timer: registry with rows T then B, Delete
clicked on row 0. -/
theorem delete_removes_timer_w :
    Timer.find_by_name
        (render_options (([] : List Timer) ++ (⟨"T", ⟨1, 0⟩, none⟩ : Timer)
            :: [⟨"B", ⟨2, 0⟩, none⟩]) (fun _ => none)
          (fun j => j == ([] : List Timer).length)).timers "T" = none
      ∧ (render_options (([] : List Timer) ++ (⟨"T", ⟨1, 0⟩, none⟩ : Timer)
            :: [⟨"B", ⟨2, 0⟩, none⟩]) (fun _ => none)
          (fun j => j == ([] : List Timer).length)).timers.map Timer.name
          = (([] : List Timer) ++ ([⟨"B", ⟨2, 0⟩, none⟩] : List Timer)).map Timer.name
      ∧ kbIdent "T" ∈ (render_options (([] : List Timer)
            ++ (⟨"T", ⟨1, 0⟩, none⟩ : Timer) :: [⟨"B", ⟨2, 0⟩, none⟩]) (fun _ => none)
          (fun j => j == ([] : List Timer).length)).unregistered
      ∧ start_key_handler
          (render_options (([] : List Timer) ++ (⟨"T", ⟨1, 0⟩, none⟩ : Timer)
              :: [⟨"B", ⟨2, 0⟩, none⟩]) (fun _ => none)
            (fun j => j == ([] : List Timer).length)).timers (kbIdent "T") false 5
        = (render_options (([] : List Timer) ++ (⟨"T", ⟨1, 0⟩, none⟩ : Timer)
              :: [⟨"B", ⟨2, 0⟩, none⟩]) (fun _ => none)
            (fun j => j == ([] : List Timer).length)).timers :=
  delete_removes_timer [] [⟨"B", ⟨2, 0⟩, none⟩] ⟨"T", ⟨1, 0⟩, none⟩ "T" 5 rfl
    (by decide) (by decide) (by decide)

/-- C8: Soft-fail load.  A missing or unreadable file (failed File::open)
and a file with invalid JSON (parse error) both yield an empty registry,
with no keybinds registered; the load function is total, so startup
proceeds. -/
theorem load_soft_fail :
    load none = ([], [])
      ∧ ∀ e : String, load (some (Except.error e)) = ([], []) :=
  ⟨rfl, fun _ => rfl⟩

/-- C9 counterexample: the name the trigger callback extracts from the
identifier of a timer named KB_TIMER_START_A is A, not the original name:
trim_start_matches removes the prefix repeatedly. -/
theorem trigger_ident_cex :
    extractName (kbIdent "KB_TIMER_START_A") ≠ "KB_TIMER_START_A" := by decide

/-- C9 amended: for every timer name that does not itself begin with
KB_TIMER_START_, the name extracted from the identifier KB_TIMER_START_name
is the original name, and a trigger event for that identifier restarts
exactly the first timer bearing that name. -/
theorem trigger_ident_round_trip (n : String) (ts : List Timer) (now : Nat)
    (h : checkPre kbPre.data n.data = false) :
    extractName (kbIdent n) = n
      ∧ start_key_handler ts (kbIdent n) false now = restartFirst ts n now := by
  have e := extract_round n h
  refine ⟨e, ?_⟩
  show restartFirst ts (extractName (kbIdent n)) now = _
  rw [e]

/-- Witness for trigger_ident_round_trip at the name A. -/
theorem trigger_ident_round_trip_w :
    extractName (kbIdent "A") = "A"
      ∧ start_key_handler [⟨"A", ⟨5, 0⟩, none⟩] (kbIdent "A") false 3
        = restartFirst [⟨"A", ⟨5, 0⟩, none⟩] "A" 3 :=
  trigger_ident_round_trip "A" [⟨"A", ⟨5, 0⟩, none⟩] 3 (by decide)

/-- C10: one execution of the editing pass with no user input reassigns
every timer's duration, running or not, to
Duration::from_secs(duration.as_secs() as i32 as u64) whenever that cast is
non-negative, and leaves it alone when the cast wraps to a negative value.
In particular any sub-second nanos component is discarded, and a
whole-second count of at least 2^31 is corrupted exactly when its low 32
bits read as a non-negative i32. -/
theorem editing_pass_rewrite (ts : List Timer) :
    (render_options ts (fun _ => none) (fun _ => false)).timers
      = ts.map (fun t =>
          { t with duration :=
              if 0 ≤ asI32ofU64 t.duration.secs
              then Duration.from_secs (asI32ofU64 t.duration.secs).toNat
              else t.duration }) := by
  have h := optionsLoop_nodel ts (fun _ => false) 0 (fun _ _ => rfl)
  simp only [render_options, h]
  simp only [editDuration_none]
